import Mathlib

/-!
Shallow embedding of the Process & Resource Lifecycle Coordinator of the
TerrariaSteamDeckServer web backend (`web/backend/`), translated from the
Python source:

* `utils.py` — `format_bytes` and friends;
* `routes/backups_routes.py` — `parse_backup_filename`, `list_backups`,
  `restore_backup`, `delete_backup`;
* `routes/worlds_routes.py` — `create_world`, `delete_world` (and the
  name-sanitization regex substitution they share);
* `routes/server_routes.py` — `start_server`, `stop_server`;
* `routes/logs_routes.py` — `get_log` windowing and its local
  `format_bytes`.

Interaction with the outside world (filesystem existence checks, the
process probe `is_server_running`, script results) is passed in as explicit
parameters; each handler becomes a pure function from those inputs to an
HTTP status plus a record of the externally visible effects it performs.
-/

namespace TerrariaWeb

/-! ## Character-level helpers -/

/-- The character class `[a-zA-Z0-9_-]` of the sanitization regex
`re.sub(r'[^a-zA-Z0-9_-]', '', name)` in `worlds_routes.py`. -/
def allowedChar (c : Char) : Bool :=
  ('a' ≤ c && c ≤ 'z') || ('A' ≤ c && c ≤ 'Z') || ('0' ≤ c && c ≤ '9')
    || c == '_' || c == '-'

/-- ASCII decimal digit, modelling `\d` of the backup-filename regex.
(Python's `\d` also accepts non-ASCII Unicode decimal digits; that wider
class does not affect any property proved below, since the proofs never
depend on which characters count as digits, only on the positions of the
literal separators.) -/
def asciiDigit (c : Char) : Bool :=
  '0' ≤ c && c ≤ '9'

/-- ASCII lower-casing of one character, modelling Python `str.lower()`
on the ASCII strings compared by the handlers (`'true'`,
`'already started'`, `'already stopped'`). -/
def asciiLowerChar (c : Char) : Char :=
  if 'A' ≤ c && c ≤ 'Z' then Char.ofNat (c.toNat + 32) else c

/-- ASCII lower-casing of a string (Python `s.lower()`). -/
def asciiLower (s : String) : String :=
  ⟨s.data.map asciiLowerChar⟩

/-- `needle` occurs as a contiguous run inside `hay` (Python `x in s`). -/
def listHasRun (needle : List Char) : List Char → Bool
  | [] => needle.isEmpty
  | c :: rest => needle.isPrefixOf (c :: rest) || listHasRun needle rest

/-- Python's `sub in s` substring test. -/
def strHasRun (needle hay : String) : Bool :=
  listHasRun needle.data hay.data

/-- `s.startswith p` (Python). -/
def pyStartsWith (p s : String) : Bool :=
  p.data.isPrefixOf s.data

/-- `s.endswith p` (Python). -/
def pyEndsWith (p s : String) : Bool :=
  p.data.isSuffixOf s.data

/-! ## Name sanitization (`worlds_routes.py`, `backups_routes.py`)

`re.sub(r'[^a-zA-Z0-9_-]', '', name)`: every character outside
`[a-zA-Z0-9_-]` is deleted, every character inside it is kept, in order. -/

/-- The sanitization substitution applied to every user-supplied world
name: keep exactly the characters in `[a-zA-Z0-9_-]`. -/
def sanitizeName (s : String) : String :=
  ⟨s.data.filter allowedChar⟩

/-! ## Backup deletion (`backups_routes.py`, `delete_backup`)

The handler receives the URL path segment `filename` and the query
parameter `confirm` (default `'false'`); whether the file exists under
`BACKUP_DIR` is an input from the filesystem. -/

/-- Outcome of a handler: HTTP status plus whether each externally visible
effect happened. -/
structure DeleteOutcome where
  status : Nat
  /-- `os.remove` was reached. -/
  removed : Bool
  deriving Repr, DecidableEq

/-- `delete_backup(filename)` with `?confirm=` value `confirm`;
`fileExists` is the result of `os.path.exists(BACKUP_DIR/filename)`.
Mirrors the source order: invalid-filename check, existence check,
confirmation check (`confirm.lower() != 'true'`), then `os.remove`. -/
def delete_backup (filename confirm : String) (fileExists : Bool) :
    DeleteOutcome :=
  if strHasRun ".." filename || strHasRun "/" filename then
    ⟨400, false⟩
  else if !fileExists then
    ⟨404, false⟩
  else if asciiLower confirm ≠ "true" then
    ⟨400, false⟩
  else
    ⟨200, true⟩

/-! ## World deletion (`worlds_routes.py`, `delete_world`) -/

/-- `delete_world(name)` with `?confirm=` value `confirm` (default `''`).
`fileExists` is `os.path.exists(WORLD_DIR/{sanitized}.wld)`; `activeWorld`
is `Config.WORLD_NAME`; `running` is `is_server_running()`. Mirrors the
source order: sanitize, existence check, confirmation check
(`confirm != name`), active-world-while-running check, then removal. -/
def delete_world (rawName confirm : String) (fileExists : Bool)
    (activeWorld : String) (running : Bool) : DeleteOutcome :=
  let name := sanitizeName rawName
  if !fileExists then
    ⟨404, false⟩
  else if confirm ≠ name then
    ⟨400, false⟩
  else if name = activeWorld && running then
    ⟨400, false⟩
  else
    ⟨200, true⟩

/-! ## Backup restore (`backups_routes.py`, `restore_backup`) -/

/-- Outcome of an operation that may invoke an external script. -/
structure ScriptOutcome where
  status : Nat
  /-- `run_script` was reached. -/
  scriptCalled : Bool
  deriving Repr, DecidableEq

/-- `restore_backup(filename)`; `fileExists` is
`os.path.exists(BACKUP_DIR/filename)`, `running` is `is_server_running()`,
`noBackup` is whether `?no_backup=` lower-cases to `'true'`, and
`scriptOk` is the success component returned by `run_script`. Mirrors the
source order: invalid-filename check, existence check, running check, then
the external restore script. -/
def restore_backup (filename : String) (fileExists running noBackup
    scriptOk : Bool) : ScriptOutcome :=
  if strHasRun ".." filename || strHasRun "/" filename then
    ⟨400, false⟩
  else if !fileExists then
    ⟨404, false⟩
  else if running then
    ⟨400, false⟩
  else if scriptOk then
    ⟨200, true⟩
  else
    ⟨500, true⟩

/-! ## Backup filename parsing (`backups_routes.py`, `parse_backup_filename`)

`re.match(r'backup_(.+)_(\d{8})_(\d{6})\.tar(?:\.gz)?$', filename)`.
`re.match` anchors at the start; `$` matches at the very end of the string
or just before a single final newline (Python semantics). `.` does not
match a newline. Because the tail after the greedy group `(.+)` has fixed
length (`_` + 8 digits + `_` + 6 digits + `.tar` or `.tar.gz`), the split
point is uniquely determined by the end of the string and greediness
introduces no choice, so the match is captured by the deterministic
decomposition below, working from the right end of the name. -/

/-- If `suf` is a suffix of `l`, remove it (returning the front part),
else `none`. -/
def stripEndRun (suf l : List Char) : Option (List Char) :=
  if suf.isSuffixOf l then some (l.take (l.length - suf.length)) else none

/-- Split `mid` as `w ++ "_" ++ d ++ "_" ++ t` where `t` is exactly 6
digits, `d` exactly 8 digits and `w` (the greedy `(.+)` group) nonempty,
working from the right so that the fixed-length tail determines the split
uniquely, as the anchored regex does. -/
def splitTailFields (mid : List Char) :
    Option (List Char × List Char × List Char) :=
  match mid.reverse.drop 6 with
  | '_' :: r3 =>
    match r3.drop 8 with
    | '_' :: wR =>
      if !wR.isEmpty && (mid.reverse.take 6).length == 6
          && (mid.reverse.take 6).all asciiDigit
          && (r3.take 8).length == 8 && (r3.take 8).all asciiDigit then
        some (wR.reverse, (r3.take 8).reverse, (mid.reverse.take 6).reverse)
      else none
    | _ => none
  | _ => none

/-- The portion of the filename the regex matches after the `backup_`
literal: everything after the first 7 characters, minus the single final
newline that `$` tolerates, if present. -/
def backupCore (cs : List Char) : List Char :=
  let rest := cs.drop 7
  if rest.getLast? = some '\n' then rest.dropLast else rest

/-- Matching of `(.+)_(\d{8})_(\d{6})\.tar(?:\.gz)?` against the core:
no newline may occur in the matched region (`.` and `\d` exclude it),
the suffix is `.tar.gz` or `.tar` (end-anchored, so the two cases are
mutually exclusive and greediness of the optional `.gz` is forced), and
the rest splits on the fixed-length tail. -/
def parseCore (core : List Char) : Option (String × String × String) :=
  if core.contains '\n' then none
  else
    (stripEndRun (".tar.gz".data) core
        <|> stripEndRun (".tar".data) core).bind
      fun mid => (splitTailFields mid).map
        fun (w, d, t) => (⟨w⟩, ⟨d⟩, ⟨t⟩)

/-- `parse_backup_filename(filename)`: returns
`(world_name, date, time)` when the anchored regex matches, `none`
otherwise. -/
def parse_backup_filename (s : String) :
    Option (String × String × String) :=
  if ("backup_".data).isPrefixOf s.data then parseCore (backupCore s.data)
  else none

/-! ## Backup listing (`backups_routes.py`, `list_backups`)

The handler walks `os.listdir(BACKUP_DIR)` and keeps a filename only if it
starts with `backup_`, ends with `.tar.gz` or `.tar`, parses under
`parse_backup_filename`, and (when the `world` query parameter is a
nonempty string) has that world name. The kept entries are then decorated
with file metadata, sorted by modification time and optionally truncated
to a limit — steps that never add entries, so membership in the result is
membership in this filter. -/

/-- The per-filename admission test of `list_backups`. -/
def backupListed (worldFilter fn : String) : Bool :=
  pyStartsWith "backup_" fn
    && (pyEndsWith ".tar.gz" fn || pyEndsWith ".tar" fn)
    && (match parse_backup_filename fn with
        | none => false
        | some (w, _, _) => worldFilter == "" || w == worldFilter)

/-- The filenames admitted into the listing, in directory order. -/
def list_backups (files : List String) (worldFilter : String) :
    List String :=
  files.filter (backupListed worldFilter)

/-! ## World creation (`worlds_routes.py`, `create_world`) -/

/-- `create_world` on a JSON body `{name, size, difficulty, seed}`.
`hasBody` is whether `request.get_json()` returned a truthy value;
`existsBefore` is `os.path.exists(WORLD_DIR/{sanitized}.wld)` before the
script runs and `existsAfter` the same check after; `scriptOk` is the
success component of `run_script`. Size and difficulty are defaulted (not
rejected) when out of range, so they do not influence the status. Mirrors
the source order: body check, empty-name check, empty-sanitized-name
check, already-exists check, script invocation, then the final
`os.path.exists` check that alone decides 201 versus 500. -/
def create_world (hasBody : Bool) (name : String) (existsBefore : Bool)
    (scriptOk : Bool) (existsAfter : Bool) : ScriptOutcome :=
  if !hasBody then
    ⟨400, false⟩
  else if name = "" then
    ⟨400, false⟩
  else if sanitizeName name = "" then
    ⟨400, false⟩
  else if existsBefore then
    ⟨409, false⟩
  else if existsAfter then
    ⟨201, true⟩
  else
    ⟨500, true⟩

/-! ## Server start/stop (`server_routes.py`)

Each handler is modelled together with the ordered list of external
interactions it performs: `Event.probe` for a call to
`is_server_running()` (the process probe) and `Event.action` for the
`run_command(['supervisorctl', ...])` daemon command. -/

/-- An externally visible interaction of a lifecycle handler. -/
inductive Event where
  /-- A process-state probe (`is_server_running()`). -/
  | probe : Event
  /-- The external daemon command (`supervisorctl start/stop`). -/
  | action : Event
  deriving Repr, DecidableEq

/-- Outcome of a lifecycle handler: status plus its interaction trace. -/
structure ServerOutcome where
  status : Nat
  events : List Event
  deriving Repr, DecidableEq

/-- `start_server`: probe; if alive, reject; else send `supervisorctl
start terraria` and report success iff the command succeeded or its
stdout contains `already started` (lower-cased). No further probe
follows the command in the source. -/
def start_server (alive cmdOk : Bool) (stdout : String) : ServerOutcome :=
  if alive then
    ⟨400, [Event.probe]⟩
  else if cmdOk || strHasRun "already started" (asciiLower stdout) then
    ⟨200, [Event.probe, Event.action]⟩
  else
    ⟨500, [Event.probe, Event.action]⟩

/-- `stop_server`: probe; if not alive, reject; else send `supervisorctl
stop terraria` and report success iff the command succeeded or its stdout
contains `already stopped` (lower-cased). No further probe follows the
command in the source. -/
def stop_server (alive cmdOk : Bool) (stdout : String) : ServerOutcome :=
  if !alive then
    ⟨400, [Event.probe]⟩
  else if cmdOk || strHasRun "already stopped" (asciiLower stdout) then
    ⟨200, [Event.probe, Event.action]⟩
  else
    ⟨500, [Event.probe, Event.action]⟩

/-- Whether a trace contains a probe somewhere after an external action —
what a "re-read state to confirm" step would look like. -/
def probeAfterAction : List Event → Bool
  | [] => false
  | Event.action :: rest => rest.contains Event.probe || probeAfterAction rest
  | _ :: rest => probeAfterAction rest

/-! ## Log windowing (`logs_routes.py`, `get_log`)

`lines = min(request_lines, 1000)`, `offset = max(request_offset, 0)`;
if `offset == 0` the handler returns `all_lines[-lines:]` when
`lines < total_lines` and the whole list otherwise, with
`start_line = max(total_lines - lines, 0)`; if `offset > 0` it returns
`all_lines[offset:offset+lines]` with `start_line = offset`. Python list
slices (step 1) clamp both endpoints; negative endpoints count from the
end. -/

/-- Clamp one Python slice endpoint for a list of length `n`. -/
def pySliceIdx (n : Nat) (i : Int) : Nat :=
  (if i < 0 then max ((n : Int) + i) 0 else min i (n : Int)).toNat

/-- Python `l[a:b]` (step 1). -/
def pySlice (l : List α) (a b : Int) : List α :=
  (l.take (pySliceIdx l.length b)).drop (pySliceIdx l.length a)

/-- Python `l[a:]` (step 1). -/
def pySliceFrom (l : List α) (a : Int) : List α :=
  l.drop (pySliceIdx l.length a)

/-- Result of the `get_log` windowing step. -/
structure LogWindow where
  selected : List String
  totalLines : Nat
  startLine : Int
  endLine : Int
  deriving Repr, DecidableEq

/-- The `selected_lines` computation of `get_log`, after clamping:
`all_lines[-lines:] if lines < total_lines else all_lines` when
`offset == 0`, else `all_lines[offset:offset + lines]`. -/
def get_log_selection (allLines : List String) (lines offset : Int) :
    List String :=
  if offset = 0 then
    if lines < (allLines.length : Int) then pySliceFrom allLines (-lines)
    else allLines
  else pySlice allLines offset (offset + lines)

/-- The `start_line` computation of `get_log`, after clamping. -/
def get_log_start (allLines : List String) (lines offset : Int) : Int :=
  if offset = 0 then max ((allLines.length : Int) - lines) 0 else offset

/-- The windowing logic of `get_log`, over the list of lines read from
the file and the raw `lines`/`offset` query integers
(`lines = min(arg, 1000)`, `offset = max(arg, 0)`). -/
def get_log_window (allLines : List String) (linesArg offsetArg : Int) :
    LogWindow :=
  let lines := min linesArg 1000
  let offset := max offsetArg 0
  ⟨get_log_selection allLines lines offset, allLines.length,
    get_log_start allLines lines offset,
    get_log_start allLines lines offset
      + (get_log_selection allLines lines offset).length⟩

/-! ## Human-readable sizes (`utils.py` and `logs_routes.py`,
`format_bytes`)

Both functions loop over a unit list, returning `f"{size:.1f}{unit}"` at
the first unit where `abs(size) < 1024` and otherwise dividing by 1024;
after the loop they fall back to a final unit with the fully divided
value. `utils.py` loops over B/KB/MB/GB/TB with fallback PB;
`logs_routes.py` loops over B/KB/MB/GB with fallback TB. Python computes
with binary doubles; the model uses exact rational arithmetic. The two
take the same branch at every comparison for every integer input (each
`< 1024` test is a comparison against a power of two at most 2^50;
below 2^53 the double is the integer exactly, and at or above 2^50 the
test is false for both), but the printed digits of the model coincide
with the source's only for `|n| < 2^53`, where doubles represent the
integer exactly; above that the double rounding of `n` itself can move
the printed decimal digit. Digit-sensitive statements below are
therefore confined to `|n| < 2^53`. `%.1f` rounds half to even. -/

/-- Round a rational to the nearest integer, ties to even. -/
def roundHalfEven (q : ℚ) : ℤ :=
  if q - ⌊q⌋ < 1 / 2 then ⌊q⌋
  else if 1 / 2 < q - ⌊q⌋ then ⌊q⌋ + 1
  else if ⌊q⌋ % 2 = 0 then ⌊q⌋ else ⌊q⌋ + 1

/-- `f"{q:.1f}"` for `0 ≤ q`. -/
def fmtOneDecimalNN (q : ℚ) : String :=
  toString (roundHalfEven (10 * q) / 10) ++ "."
    ++ toString (roundHalfEven (10 * q) % 10)

/-- `f"{q:.1f}"`. -/
def fmtOneDecimal (q : ℚ) : String :=
  if q < 0 then "-" ++ fmtOneDecimalNN (-q) else fmtOneDecimalNN q

/-- The shared loop shape of the two `format_bytes` definitions: try each
unit in order, else fall through to `fallback` with the fully divided
value. -/
def formatLoop (fallback : String) : List String → ℚ → String
  | [], q => fmtOneDecimal q ++ fallback
  | u :: us, q =>
    if |q| < 1024 then fmtOneDecimal q ++ u
    else formatLoop fallback us (q / 1024)

/-- `utils.format_bytes`: units B/KB/MB/GB/TB, fallback PB. -/
def format_bytes (n : ℤ) : String :=
  formatLoop "PB" ["B", "KB", "MB", "GB", "TB"] (n : ℚ)

/-- `logs_routes.format_bytes`: units B/KB/MB/GB, fallback TB. -/
def logs_format_bytes (n : ℤ) : String :=
  formatLoop "TB" ["B", "KB", "MB", "GB"] (n : ℚ)

/-- The unit ladder B/KB/MB/GB/TB/PB by index. -/
def unitSuffix : ℕ → String
  | 0 => "B"
  | 1 => "KB"
  | 2 => "MB"
  | 3 => "GB"
  | 4 => "TB"
  | _ => "PB"

/-- The first unit index at which the repeatedly divided magnitude drops
below 1024. -/
def leastUnit (n : ℤ) : ℕ :=
  if |n| < 1024 then 0
  else if |n| < 1024 ^ 2 then 1
  else if |n| < 1024 ^ 3 then 2
  else if |n| < 1024 ^ 4 then 3
  else if |n| < 1024 ^ 5 then 4
  else 5

/-! ## Theorems -/

/-- C1: for every restore request naming an existing backup file
(`fileExists = true`), if the probed process state is alive
(`running = true`) the restore operation reports HTTP 400 and the
external restore script is never invoked, regardless of the `no_backup`
flag and of what the script would have returned. -/
theorem restore_rejected_while_running (filename : String)
    (noBackup scriptOk : Bool) :
    restore_backup filename true true noBackup scriptOk = ⟨400, false⟩ := by
  unfold restore_backup
  split_ifs <;> simp_all

/-- C2: for a well-formed request (JSON body present, name nonempty and
not sanitized to empty) naming a world that does not yet exist, the
world-create operation invokes the script and reports 201 exactly when
the world file exists afterwards and 500 when it does not — the script's
exit status plays no part in the outcome. -/
theorem create_world_filesystem_decides (name : String)
    (scriptOk existsAfter : Bool) (h1 : name ≠ "")
    (h2 : sanitizeName name ≠ "") :
    create_world true name false scriptOk existsAfter =
      ⟨if existsAfter then 201 else 500, true⟩ := by
  unfold create_world
  split_ifs <;> simp_all

/-- Witness for C2 at concrete inputs: with name `"World"`, the script
failing but the file present yields 201, and the script succeeding but
the file absent yields 500. -/
theorem create_world_filesystem_decides_witness :
    create_world true "World" false false true = ⟨201, true⟩ ∧
    create_world true "World" false true false = ⟨500, true⟩ := by
  constructor
  · have h := create_world_filesystem_decides "World" false true
      (by decide) (by decide)
    simpa using h
  · have h := create_world_filesystem_decides "World" true false
      (by decide) (by decide)
    simpa using h

/-- C4: the name-sanitization function is total and idempotent — its
output contains only characters in `[A-Za-z0-9_-]`, and sanitizing twice
equals sanitizing once. -/
theorem sanitizeName_total_idempotent (s : String) :
    (sanitizeName s).data.all allowedChar = true ∧
    sanitizeName (sanitizeName s) = sanitizeName s := by
  constructor
  · show (s.data.filter allowedChar).all allowedChar = true
    rw [List.all_eq_true]
    intro c hc
    exact List.of_mem_filter hc
  · show String.mk ((s.data.filter allowedChar).filter allowedChar)
      = String.mk (s.data.filter allowedChar)
    exact congrArg String.mk
      (by rw [List.filter_filter]; simp)

/-- C7: deleting an existing world is rejected with 400 and no file
removal whenever the confirmation query parameter differs from the
world's own sanitized name, whatever the active world and process state
are. -/
theorem delete_world_confirm_mismatch (rawName confirm activeWorld :
    String) (running : Bool) (h : confirm ≠ sanitizeName rawName) :
    delete_world rawName confirm true activeWorld running
      = ⟨400, false⟩ := by
  unfold delete_world
  split_ifs <;> simp_all

/-- Witness for C7: deleting world `"Alpha"` with `confirm="true"` is
rejected and nothing is removed. -/
theorem delete_world_confirm_mismatch_witness :
    delete_world "Alpha" "true" true "Alpha" false = ⟨400, false⟩ :=
  delete_world_confirm_mismatch "Alpha" "true" "Alpha" false (by decide)

/-- C8 counterexample: the claim says deletion proceeds *only* when the
confirmation token equals the literal string `"true"`, every other value
being rejected; but the source lower-cases the token first, so
`confirm="True"` (which is not `"true"`) deletes the existing backup. -/
theorem delete_backup_confirm_cex :
    delete_backup "backup_A_20260101_000000.tar.gz" "True" true
        = ⟨200, true⟩ ∧
    ("True" : String) ≠ "true" := by
  constructor
  · decide
  · decide

/-- C8 amended: deletion of an existing backup (with a filename free of
`..` and `/`) proceeds exactly when the confirmation token
ASCII-lower-cases to `"true"`; otherwise it is rejected with 400 and the
file is not removed. -/
theorem delete_backup_confirm_lowercase (filename confirm : String)
    (h1 : strHasRun ".." filename = false)
    (h2 : strHasRun "/" filename = false) :
    delete_backup filename confirm true =
      if asciiLower confirm = "true" then ⟨200, true⟩
      else ⟨400, false⟩ := by
  unfold delete_backup
  split_ifs <;> simp_all

/-- Witness for C8 at concrete inputs: `confirm="TRUE"` deletes,
`confirm="yes"` is rejected. -/
theorem delete_backup_confirm_lowercase_witness :
    delete_backup "backup_A_20260101_000000.tar.gz" "TRUE" true
        = ⟨200, true⟩ ∧
    delete_backup "backup_A_20260101_000000.tar.gz" "yes" true
        = ⟨400, false⟩ := by
  constructor
  · have h := delete_backup_confirm_lowercase
      "backup_A_20260101_000000.tar.gz" "TRUE" (by decide) (by decide)
    simpa using h
  · have h := delete_backup_confirm_lowercase
      "backup_A_20260101_000000.tar.gz" "yes" (by decide) (by decide)
    simpa using h

/-- C3 counterexample: the claim says start re-probes process state after
sending the daemon start command; but at the concrete input
(process not alive, command succeeds) the trace of `start_server` is
probe-then-action with no probe anywhere after the action. -/
theorem start_server_no_reprobe_cex :
    (start_server false true "").events = [Event.probe, Event.action] ∧
    (start_server false true "").events.contains Event.action = true ∧
    probeAfterAction (start_server false true "").events = false := by
  refine ⟨?_, ?_, ?_⟩ <;> decide

/-- C3 amended: the start and stop operations probe the managed process's
state exactly once, before the daemon command, and never re-probe after
invoking it; their reported outcome is derived from the command's exit
status and idempotent output alone. (The world-create and backup-create
operations do re-read the filesystem after their scripts; the process
lifecycle operations do not re-probe.) -/
theorem start_stop_probe_only_before_action (alive cmdOk : Bool)
    (out : String) :
    probeAfterAction (start_server alive cmdOk out).events = false ∧
    (start_server alive cmdOk out).events.head? = some Event.probe ∧
    (start_server alive cmdOk out).events.count Event.probe = 1 ∧
    probeAfterAction (stop_server alive cmdOk out).events = false ∧
    (stop_server alive cmdOk out).events.head? = some Event.probe ∧
    (stop_server alive cmdOk out).events.count Event.probe = 1 := by
  unfold start_server stop_server
  split_ifs <;> refine ⟨?_, ?_, ?_, ?_, ?_, ?_⟩ <;> decide

/-- C6 counterexample: the claim says that with `offset = 0` the
operation returns the last `windowSize` lines; but at the concrete input
`windowSize = 0`, `offset = 0` on a one-line file the source computes
`all_lines[-0:]`, i.e. the whole file, not the last zero lines (the empty
list). -/
theorem get_log_window_zero_cex :
    (get_log_window ["a"] 0 0).selected = ["a"] ∧
    (["a"] : List String) ≠ [] := by
  constructor
  · decide
  · decide

/-- C6 amended: for `1 ≤ windowSize ≤ 1000` and `offset ≥ 0`: with
`offset = 0` the operation returns the last `min windowSize totalLines`
lines with `start_line = max (totalLines - windowSize) 0`; with
`offset > 0` it returns the lines of the window
`[offset, offset + windowSize)` — i.e. up to `windowSize` lines starting
at line `offset` — with `start_line = offset`; `total_lines` is always
the file's line count. -/
theorem get_log_window_spec (l : List String) (w off : Int)
    (hw1 : 1 ≤ w) (hw2 : w ≤ 1000) (hoff : 0 ≤ off) :
    (get_log_window l w off).totalLines = l.length ∧
    (off = 0 →
      (get_log_window l w off).selected = l.drop (l.length - w.toNat) ∧
      (get_log_window l w off).startLine
        = max ((l.length : Int) - w) 0) ∧
    (0 < off →
      (get_log_window l w off).selected
        = (l.drop off.toNat).take w.toNat ∧
      (get_log_window l w off).startLine = off) := by
  have hmin : min w 1000 = w := min_eq_left hw2
  have hmax : max off 0 = off := max_eq_left hoff
  have hsel : (get_log_window l w off).selected
      = get_log_selection l w off := by
    show get_log_selection l (min w 1000) (max off 0) = _
    rw [hmin, hmax]
  have hstart : (get_log_window l w off).startLine
      = get_log_start l w off := by
    show get_log_start l (min w 1000) (max off 0) = _
    rw [hmin, hmax]
  refine ⟨rfl, fun hoff0 => ?_, fun hpos => ?_⟩
  · subst hoff0
    rw [hsel, hstart, get_log_selection, get_log_start,
      if_pos rfl, if_pos rfl]
    refine ⟨?_, rfl⟩
    by_cases hlt : w < (l.length : Int)
    · rw [if_pos hlt]
      unfold pySliceFrom pySliceIdx
      rw [if_pos (by omega : -w < 0)]
      have : (max ((l.length : Int) + -w) 0).toNat
          = l.length - w.toNat := by
        rw [max_eq_left (by omega : (0 : Int) ≤ (l.length : Int) + -w)]
        omega
      rw [this]
    · rw [if_neg hlt]
      have : l.length - w.toNat = 0 := by omega
      rw [this, List.drop_zero]
  · have hoff0 : off ≠ 0 := by omega
    rw [hsel, hstart, get_log_selection, get_log_start,
      if_neg hoff0, if_neg hoff0]
    refine ⟨?_, rfl⟩
    unfold pySlice pySliceIdx
    rw [if_neg (by omega : ¬ off < 0),
      if_neg (by omega : ¬ off + w < 0)]
    rw [List.drop_take]
    by_cases hn : off ≤ (l.length : Int)
    · have hlo : (min off (l.length : Int)).toNat = off.toNat := by
        rw [min_eq_left hn]
      rw [hlo]
      by_cases hnw : off + w ≤ (l.length : Int)
      · have hhi : (min (off + w) (l.length : Int)).toNat - off.toNat
            = w.toNat := by
          rw [min_eq_left hnw]; omega
        rw [hhi]
      · have hhi : (min (off + w) (l.length : Int)).toNat - off.toNat
            = l.length - off.toNat := by
          rw [min_eq_right (by omega : (l.length : Int) ≤ off + w)]
          omega
        rw [hhi]
        rw [List.take_of_length_le (by rw [List.length_drop]),
          List.take_of_length_le (by rw [List.length_drop]; omega)]
    · have hlo : (min off (l.length : Int)).toNat = l.length := by
        rw [min_eq_right (by omega : (l.length : Int) ≤ off)]; omega
      rw [hlo, List.drop_length,
        List.drop_eq_nil_of_le (by omega : l.length ≤ off.toNat)]
      simp

/-- Witness for C6: on a 10-line file with `windowSize = 5`,
`offset = 0`, the returned window is exactly lines 6–10 in order with
`start_line = 5` and `total_lines = 10`. -/
theorem get_log_window_spec_witness :
    (get_log_window ["l1", "l2", "l3", "l4", "l5", "l6", "l7", "l8",
        "l9", "l10"] 5 0).selected
      = ["l6", "l7", "l8", "l9", "l10"] ∧
    (get_log_window ["l1", "l2", "l3", "l4", "l5", "l6", "l7", "l8",
        "l9", "l10"] 5 0).startLine = 5 ∧
    (get_log_window ["l1", "l2", "l3", "l4", "l5", "l6", "l7", "l8",
        "l9", "l10"] 5 0).totalLines = 10 := by
  have h := get_log_window_spec
    ["l1", "l2", "l3", "l4", "l5", "l6", "l7", "l8", "l9", "l10"] 5 0
    (by decide) (by decide) (by decide)
  obtain ⟨ht, h0, _⟩ := h
  obtain ⟨hsel, hstart⟩ := h0 rfl
  refine ⟨?_, ?_, ?_⟩
  · rw [hsel]; decide
  · rw [hstart]; decide
  · rw [ht]; decide

/-! ### Backup-filename parsing lemmas (C5) -/

/-- A list with a boolean prefix decomposes as that prefix followed by
the corresponding drop. -/
lemma eq_append_drop_of_isPrefixOf :
    ∀ {p l : List Char}, p.isPrefixOf l = true → l = p ++ l.drop p.length := by
  intro p
  induction p with
  | nil => intro l _; simp
  | cons a as ih =>
    intro l h
    cases l with
    | nil => simp [List.isPrefixOf] at h
    | cons b bs =>
      rw [List.isPrefixOf, Bool.and_eq_true] at h
      obtain ⟨h1, h2⟩ := h
      obtain rfl : a = b := eq_of_beq h1
      rw [List.length_cons, List.cons_append, List.drop_succ_cons]
      exact congrArg (a :: ·) (ih h2)

/-- `stripEndRun suf l = some m` means `l = m ++ suf`. -/
lemma stripEndRun_eq {suf l m : List Char}
    (h : stripEndRun suf l = some m) : l = m ++ suf := by
  unfold stripEndRun at h
  split at h
  · rename_i hsuf
    obtain ⟨u, hu⟩ := List.isSuffixOf_iff_suffix.mp hsuf
    obtain rfl : l.take (l.length - suf.length) = m := by
      injection h
    subst hu
    have hlen : (u ++ suf).length - suf.length = u.length := by
      rw [List.length_append]; omega
    rw [hlen, List.take_left]
  · exact absurd h (by simp)

/-- `splitTailFields mid = some (w, d, t)` means
`mid = w ++ "_" ++ d ++ "_" ++ t`. -/
lemma splitTailFields_eq {mid w d t : List Char}
    (h : splitTailFields mid = some (w, d, t)) :
    mid = w ++ '_' :: (d ++ '_' :: t) := by
  unfold splitTailFields at h
  split at h
  · rename_i r3 heq6
    split at h
    · rename_i wR heq8
      split at h
      · injection h with h'
        simp only [Prod.mk.injEq] at h'
        obtain ⟨hw, hd, ht⟩ := h'
        subst hw hd ht
        have e1 : mid.reverse = mid.reverse.take 6 ++ ('_' :: r3) := by
          conv_lhs => rw [← List.take_append_drop 6 mid.reverse]
          rw [heq6]
        have e2 : r3 = r3.take 8 ++ ('_' :: wR) := by
          conv_lhs => rw [← List.take_append_drop 8 r3]
          rw [heq8]
        generalize ht6 : mid.reverse.take 6 = t6 at e1 ⊢
        generalize hd8 : r3.take 8 = d8 at e2 ⊢
        rw [e2] at e1
        have : mid = (t6 ++ '_' :: (d8 ++ '_' :: wR)).reverse := by
          rw [← e1, List.reverse_reverse]
        rw [this]
        simp
      · exact absurd h (by simp)
    · exact absurd h (by simp)
  · exact absurd h (by simp)

/-- What matching the core means, at the character-list level. -/
lemma parseCore_eq {core : List Char} {w d t : String}
    (h : parseCore core = some (w, d, t)) :
    core = (w.data ++ '_' :: (d.data ++ '_' :: t.data)) ++ ".tar".data ∨
    core = (w.data ++ '_' :: (d.data ++ '_' :: t.data)) ++ ".tar.gz".data := by
  unfold parseCore at h
  split at h
  · exact absurd h (by simp)
  · rw [Option.bind_eq_some] at h
    obtain ⟨mid, hmid, hmap⟩ := h
    rw [Option.map_eq_some'] at hmap
    obtain ⟨⟨wl, dl, tl⟩, hsplit, heq⟩ := hmap
    simp only [Prod.mk.injEq] at heq
    obtain ⟨hw, hd, ht⟩ := heq
    subst hw hd ht
    have hmidEq := splitTailFields_eq hsplit
    cases hgz : stripEndRun (".tar.gz".data) core with
    | some m1 =>
      rw [hgz] at hmid
      obtain rfl : m1 = mid := by simpa using hmid
      right
      rw [stripEndRun_eq hgz, hmidEq]
    | none =>
      rw [hgz] at hmid
      simp only [Option.none_orElse] at hmid
      left
      rw [stripEndRun_eq hmid, hmidEq]

/-- The matched region of the filename: either the whole remainder after
`backup_`, or that remainder minus a final newline tolerated by `$`. -/
lemma backupCore_cases (cs : List Char) :
    cs.drop 7 = backupCore cs ∨ cs.drop 7 = backupCore cs ++ ['\n'] := by
  unfold backupCore
  by_cases hnl : (cs.drop 7).getLast? = some '\n'
  · right
    rw [if_pos hnl]
    exact (List.dropLast_append_getLast? _ hnl).symm
  · left
    rw [if_neg hnl]

/-- C5 counterexample: the parser (Python `$` matches just before a
single final newline) accepts `"backup_A_20260101_000000.tar\n"` and
extracts `("A", "20260101", "000000")`, but re-synthesizing
`backup_<world>_<date>_<time>` with either original suffix does not
reproduce the filename — the trailing newline is lost. -/
theorem parse_backup_trailing_newline_cex :
    parse_backup_filename "backup_A_20260101_000000.tar\n"
      = some ("A", "20260101", "000000") ∧
    "backup_A_20260101_000000.tar\n"
      ≠ "backup_" ++ "A" ++ "_" ++ "20260101" ++ "_" ++ "000000"
          ++ ".tar" ∧
    "backup_A_20260101_000000.tar\n"
      ≠ "backup_" ++ "A" ++ "_" ++ "20260101" ++ "_" ++ "000000"
          ++ ".tar.gz" := by
  refine ⟨by decide, by decide, by decide⟩

/-- C5 amended: for every filename the parser accepts, re-synthesizing
`backup_<world>_<date>_<time>` followed by the filename's original
`.tar` or `.tar.gz` suffix reproduces the filename exactly, except that
a single trailing newline (tolerated by the Python `$` anchor) is
dropped; and every filename admitted into a backup listing is one the
parser accepts. -/
theorem backup_filename_roundtrip_listing :
    (∀ s w d t : String, parse_backup_filename s = some (w, d, t) →
      s = "backup_" ++ w ++ "_" ++ d ++ "_" ++ t ++ ".tar" ∨
      s = "backup_" ++ w ++ "_" ++ d ++ "_" ++ t ++ ".tar.gz" ∨
      s = "backup_" ++ w ++ "_" ++ d ++ "_" ++ t ++ ".tar" ++ "\n" ∨
      s = "backup_" ++ w ++ "_" ++ d ++ "_" ++ t ++ ".tar.gz" ++ "\n") ∧
    (∀ (files : List String) (wf fn : String),
      fn ∈ list_backups files wf →
      (parse_backup_filename fn).isSome = true) := by
  constructor
  · intro s w d t h
    unfold parse_backup_filename at h
    split at h
    case isFalse => exact absurd h (by simp)
    case isTrue hpre =>
      have hs : s.data = "backup_".data ++ s.data.drop 7 := by
        have := eq_append_drop_of_isPrefixOf hpre
        simpa using this
      have hcore := parseCore_eq h
      rcases backupCore_cases s.data with hb | hb <;>
        rcases hcore with hc | hc
      · left
        refine String.ext ?_
        simp only [String.data_append]
        rw [hs, hb, hc]
        simp
      · right; left
        refine String.ext ?_
        simp only [String.data_append]
        rw [hs, hb, hc]
        simp
      · right; right; left
        refine String.ext ?_
        simp only [String.data_append]
        rw [hs, hb, hc]
        simp
      · right; right; right
        refine String.ext ?_
        simp only [String.data_append]
        rw [hs, hb, hc]
        simp
  · intro files wf fn hmem
    have hb := (List.mem_filter.mp hmem).2
    unfold backupListed at hb
    cases hp : parse_backup_filename fn with
    | some v => simp [hp]
    | none => rw [hp] at hb; simp at hb

/-- Witness for C5 at a concrete well-formed filename. -/
theorem backup_filename_roundtrip_listing_witness :
    parse_backup_filename "backup_MyWorld_20260128_120000.tar.gz"
      = some ("MyWorld", "20260128", "120000") ∧
    ("backup_MyWorld_20260128_120000.tar.gz"
        = "backup_" ++ "MyWorld" ++ "_" ++ "20260128" ++ "_" ++ "120000"
            ++ ".tar" ∨
      "backup_MyWorld_20260128_120000.tar.gz"
        = "backup_" ++ "MyWorld" ++ "_" ++ "20260128" ++ "_" ++ "120000"
            ++ ".tar.gz" ∨
      "backup_MyWorld_20260128_120000.tar.gz"
        = "backup_" ++ "MyWorld" ++ "_" ++ "20260128" ++ "_" ++ "120000"
            ++ ".tar" ++ "\n" ∨
      "backup_MyWorld_20260128_120000.tar.gz"
        = "backup_" ++ "MyWorld" ++ "_" ++ "20260128" ++ "_" ++ "120000"
            ++ ".tar.gz" ++ "\n") ∧
    (parse_backup_filename "backup_MyWorld_20260128_120000.tar.gz").isSome
      = true := by
  refine ⟨by decide, ?_, ?_⟩
  · exact backup_filename_roundtrip_listing.1
      "backup_MyWorld_20260128_120000.tar.gz" "MyWorld" "20260128"
      "120000" (by decide)
  · exact backup_filename_roundtrip_listing.2
      ["backup_MyWorld_20260128_120000.tar.gz", "notes.txt"] ""
      "backup_MyWorld_20260128_120000.tar.gz" (by decide)

/-! ### Human-size formatting lemmas (C9, C10) -/

lemma abs_intCast_lt (n : ℤ) : |(n : ℚ)| < 1024 ↔ |n| < 1024 := by
  rw [← Int.cast_abs]
  constructor <;> intro h <;> exact_mod_cast h

lemma abs_cast_div_pow_lt (n : ℤ) (k : ℕ) :
    |(n : ℚ) / 1024 ^ k| < 1024 ↔ |n| < 1024 ^ (k + 1) := by
  rw [abs_div, abs_pow, abs_of_nonneg (by norm_num : (0:ℚ) ≤ 1024),
    div_lt_iff₀ (by positivity), ← pow_succ', ← Int.cast_abs]
  constructor <;> intro h <;> exact_mod_cast h

lemma chain1 (n : ℤ) : (n : ℚ) / 1024 = (n : ℚ) / 1024 ^ 1 := by ring

lemma chain2 (n : ℤ) : (n : ℚ) / 1024 / 1024 = (n : ℚ) / 1024 ^ 2 := by
  ring

lemma chain3 (n : ℤ) :
    (n : ℚ) / 1024 / 1024 / 1024 = (n : ℚ) / 1024 ^ 3 := by ring

lemma chain4 (n : ℤ) :
    (n : ℚ) / 1024 / 1024 / 1024 / 1024 = (n : ℚ) / 1024 ^ 4 := by ring

lemma chain5 (n : ℤ) :
    (n : ℚ) / 1024 / 1024 / 1024 / 1024 / 1024 = (n : ℚ) / 1024 ^ 5 := by
  ring

lemma roundHalfEven_intCast (z : ℤ) : roundHalfEven ((z : ℚ)) = z := by
  have h : (z : ℚ) - ⌊(z : ℚ)⌋ < 1 / 2 := by
    rw [Int.floor_intCast, sub_self]; norm_num
  rw [roundHalfEven, if_pos h, Int.floor_intCast]

lemma append_PB_ne_TB (s t : String) : s ++ "PB" ≠ t ++ "TB" := by
  intro h
  have hd := congrArg String.data h
  rw [String.data_append, String.data_append] at hd
  have hrev := congrArg List.reverse hd
  rw [List.reverse_append, List.reverse_append] at hrev
  have h1 : ("PB".data).reverse = ['B', 'P'] := by decide
  have h2 : ("TB".data).reverse = ['B', 'T'] := by decide
  rw [h1, h2] at hrev
  simp only [List.cons_append, List.nil_append] at hrev
  injection hrev with h4 h5
  injection h5 with h6 h7
  exact absurd h6 (by decide)

/-- C9: the human-size formatter divides repeatedly by 1024 across the
units B/KB/MB/GB/TB/PB, printing with one decimal place at the first
unit where the magnitude is below 1024; in particular
`format_bytes 0 = "0.0B"`, `format_bytes 1536 = "1.5KB"` and
`format_bytes 1073741824 = "1.0GB"`. The general clause is stated for
`|n| < 2^53`, the range on which the source's binary doubles represent
the size exactly, so that the rational model's printed digits are those
of the program. -/
theorem format_bytes_spec :
    format_bytes 0 = "0.0B" ∧
    format_bytes 1536 = "1.5KB" ∧
    format_bytes 1073741824 = "1.0GB" ∧
    ∀ n : ℤ, |n| < 2 ^ 53 →
      format_bytes n
        = fmtOneDecimal ((n : ℚ) / 1024 ^ leastUnit n)
            ++ unitSuffix (leastUnit n) := by
  have hgen : ∀ n : ℤ,
      format_bytes n
        = fmtOneDecimal ((n : ℚ) / 1024 ^ leastUnit n)
            ++ unitSuffix (leastUnit n) := by
    intro n
    rw [format_bytes]
    simp only [formatLoop]
    rw [chain5 n, chain4 n, chain3 n, chain2 n, chain1 n]
    rcases lt_or_le |n| 1024 with b0 | b0
    · rw [if_pos ((abs_intCast_lt n).mpr b0), leastUnit, if_pos b0]
      simp [unitSuffix]
    · have nc0 : ¬ |(n : ℚ)| < 1024 :=
        fun hc => absurd ((abs_intCast_lt n).mp hc) (not_lt.mpr b0)
      rcases lt_or_le |n| (1024 ^ 2) with b1 | b1
      · have c1 : |(n : ℚ) / 1024 ^ 1| < 1024 :=
          (abs_cast_div_pow_lt n 1).mpr (lt_of_lt_of_le b1 (by norm_num))
        rw [if_neg nc0, if_pos c1, leastUnit, if_neg (not_lt.mpr b0),
          if_pos b1]
        simp [unitSuffix]
      · have nc1 : ¬ |(n : ℚ) / 1024 ^ 1| < 1024 :=
          fun hc => absurd ((abs_cast_div_pow_lt n 1).mp hc)
            (not_lt.mpr (le_trans (by norm_num) b1))
        rcases lt_or_le |n| (1024 ^ 3) with b2 | b2
        · have c2 : |(n : ℚ) / 1024 ^ 2| < 1024 :=
            (abs_cast_div_pow_lt n 2).mpr
              (lt_of_lt_of_le b2 (by norm_num))
          rw [if_neg nc0, if_neg nc1, if_pos c2, leastUnit,
            if_neg (not_lt.mpr b0), if_neg (not_lt.mpr b1), if_pos b2]
          simp [unitSuffix]
        · have nc2 : ¬ |(n : ℚ) / 1024 ^ 2| < 1024 :=
            fun hc => absurd ((abs_cast_div_pow_lt n 2).mp hc)
              (not_lt.mpr (le_trans (by norm_num) b2))
          rcases lt_or_le |n| (1024 ^ 4) with b3 | b3
          · have c3 : |(n : ℚ) / 1024 ^ 3| < 1024 :=
              (abs_cast_div_pow_lt n 3).mpr
                (lt_of_lt_of_le b3 (by norm_num))
            rw [if_neg nc0, if_neg nc1, if_neg nc2, if_pos c3,
              leastUnit, if_neg (not_lt.mpr b0), if_neg (not_lt.mpr b1),
              if_neg (not_lt.mpr b2), if_pos b3]
            simp [unitSuffix]
          · have nc3 : ¬ |(n : ℚ) / 1024 ^ 3| < 1024 :=
              fun hc => absurd ((abs_cast_div_pow_lt n 3).mp hc)
                (not_lt.mpr (le_trans (by norm_num) b3))
            rcases lt_or_le |n| (1024 ^ 5) with b4 | b4
            · have c4 : |(n : ℚ) / 1024 ^ 4| < 1024 :=
                (abs_cast_div_pow_lt n 4).mpr
                  (lt_of_lt_of_le b4 (by norm_num))
              rw [if_neg nc0, if_neg nc1, if_neg nc2, if_neg nc3,
                if_pos c4, leastUnit, if_neg (not_lt.mpr b0),
                if_neg (not_lt.mpr b1), if_neg (not_lt.mpr b2),
                if_neg (not_lt.mpr b3), if_pos b4]
              simp [unitSuffix]
            · have nc4 : ¬ |(n : ℚ) / 1024 ^ 4| < 1024 :=
                fun hc => absurd ((abs_cast_div_pow_lt n 4).mp hc)
                  (not_lt.mpr (le_trans (by norm_num) b4))
              rw [if_neg nc0, if_neg nc1, if_neg nc2, if_neg nc3,
                if_neg nc4, leastUnit, if_neg (not_lt.mpr b0),
                if_neg (not_lt.mpr b1), if_neg (not_lt.mpr b2),
                if_neg (not_lt.mpr b3), if_neg (not_lt.mpr b4)]
              simp [unitSuffix]
  refine ⟨?_, ?_, ?_, fun n _ => hgen n⟩
  · have hg := hgen 0
    rw [show leastUnit 0 = 0 from by decide] at hg
    rw [hg, pow_zero, div_one, Int.cast_zero]
    rw [fmtOneDecimal, if_neg (by norm_num : ¬ (0:ℚ) < 0),
      fmtOneDecimalNN]
    have hr : roundHalfEven ((10:ℚ) * 0) = 0 := by
      rw [mul_zero, show (0:ℚ) = ((0:ℤ):ℚ) from by norm_num,
        roundHalfEven_intCast]
    rw [hr]
    decide
  · have hg := hgen 1536
    rw [show leastUnit 1536 = 1 from by decide] at hg
    rw [hg, show ((1536:ℤ):ℚ) / 1024 ^ 1 = (3:ℚ)/2 from by norm_num]
    rw [fmtOneDecimal, if_neg (by norm_num : ¬ (3:ℚ)/2 < 0),
      fmtOneDecimalNN]
    rw [show (10:ℚ) * ((3:ℚ)/2) = ((15:ℤ):ℚ) from by norm_num,
      roundHalfEven_intCast]
    decide
  · have hg := hgen 1073741824
    rw [show leastUnit 1073741824 = 3 from by decide] at hg
    rw [hg,
      show ((1073741824:ℤ):ℚ) / 1024 ^ 3 = ((1:ℤ):ℚ) from by norm_num]
    rw [fmtOneDecimal, if_neg (by norm_num : ¬ ((1:ℤ):ℚ) < 0),
      fmtOneDecimalNN]
    rw [show (10:ℚ) * ((1:ℤ):ℚ) = ((10:ℤ):ℚ) from by norm_num,
      roundHalfEven_intCast]
    decide

/-- Witness for C9: the general clause applied at 1536. -/
theorem format_bytes_spec_witness :
    |(1536 : ℤ)| < 2 ^ 53 ∧
    format_bytes 1536
      = fmtOneDecimal (((1536 : ℤ) : ℚ) / 1024 ^ leastUnit 1536)
          ++ unitSuffix (leastUnit 1536) :=
  ⟨by decide, format_bytes_spec.2.2.2 1536 (by decide)⟩

/-- C10: the `utils.py` and `logs_routes.py` size formatters return
identical strings exactly for sizes strictly below one pebibyte
(`1024^5` bytes): they agree on every smaller non-negative size and
differ at `1024^5` and every size above it. -/
theorem format_bytes_agreement (n : ℕ) :
    format_bytes (n : ℤ) = logs_format_bytes (n : ℤ) ↔ n < 1024 ^ 5 := by
  have habs : |((n : ℕ) : ℤ)| = (n : ℤ) :=
    abs_of_nonneg (Int.natCast_nonneg n)
  constructor
  · intro h
    by_contra hge
    push_neg at hge
    have hge' : (1024:ℤ) ^ 5 ≤ |(n : ℤ)| := by
      rw [habs]; exact_mod_cast hge
    have nc0 : ¬ |((n : ℤ) : ℚ)| < 1024 :=
      fun hc => absurd ((abs_intCast_lt _).mp hc)
        (not_lt.mpr (le_trans (by norm_num) hge'))
    have nc1 : ¬ |((n : ℤ) : ℚ) / 1024 ^ 1| < 1024 :=
      fun hc => absurd ((abs_cast_div_pow_lt _ 1).mp hc)
        (not_lt.mpr (le_trans (by norm_num) hge'))
    have nc2 : ¬ |((n : ℤ) : ℚ) / 1024 ^ 2| < 1024 :=
      fun hc => absurd ((abs_cast_div_pow_lt _ 2).mp hc)
        (not_lt.mpr (le_trans (by norm_num) hge'))
    have nc3 : ¬ |((n : ℤ) : ℚ) / 1024 ^ 3| < 1024 :=
      fun hc => absurd ((abs_cast_div_pow_lt _ 3).mp hc)
        (not_lt.mpr (le_trans (by norm_num) hge'))
    have nc4 : ¬ |((n : ℤ) : ℚ) / 1024 ^ 4| < 1024 :=
      fun hc => absurd ((abs_cast_div_pow_lt _ 4).mp hc)
        (not_lt.mpr (le_trans (by norm_num) hge'))
    rw [format_bytes, logs_format_bytes] at h
    simp only [formatLoop] at h
    rw [chain5 _, chain4 _, chain3 _, chain2 _, chain1 _] at h
    rw [if_neg nc0, if_neg nc0, if_neg nc1, if_neg nc1, if_neg nc2,
      if_neg nc2, if_neg nc3, if_neg nc3, if_neg nc4] at h
    exact append_PB_ne_TB _ _ h
  · intro hlt
    have hlt' : |(n : ℤ)| < 1024 ^ 5 := by
      rw [habs]; exact_mod_cast hlt
    rw [format_bytes, logs_format_bytes]
    simp only [formatLoop]
    rw [chain5 _, chain4 _, chain3 _, chain2 _, chain1 _]
    rcases lt_or_le |(n : ℤ)| 1024 with b0 | b0
    · have c0 : |((n : ℤ) : ℚ)| < 1024 := (abs_intCast_lt _).mpr b0
      rw [if_pos c0, if_pos c0]
    · have nc0 : ¬ |((n : ℤ) : ℚ)| < 1024 :=
        fun hc => absurd ((abs_intCast_lt _).mp hc) (not_lt.mpr b0)
      rcases lt_or_le |(n : ℤ)| (1024 ^ 2) with b1 | b1
      · have c1 : |((n : ℤ) : ℚ) / 1024 ^ 1| < 1024 :=
          (abs_cast_div_pow_lt _ 1).mpr (lt_of_lt_of_le b1 (by norm_num))
        rw [if_neg nc0, if_neg nc0, if_pos c1, if_pos c1]
      · have nc1 : ¬ |((n : ℤ) : ℚ) / 1024 ^ 1| < 1024 :=
          fun hc => absurd ((abs_cast_div_pow_lt _ 1).mp hc)
            (not_lt.mpr (le_trans (by norm_num) b1))
        rcases lt_or_le |(n : ℤ)| (1024 ^ 3) with b2 | b2
        · have c2 : |((n : ℤ) : ℚ) / 1024 ^ 2| < 1024 :=
            (abs_cast_div_pow_lt _ 2).mpr
              (lt_of_lt_of_le b2 (by norm_num))
          rw [if_neg nc0, if_neg nc0, if_neg nc1, if_neg nc1,
            if_pos c2, if_pos c2]
        · have nc2 : ¬ |((n : ℤ) : ℚ) / 1024 ^ 2| < 1024 :=
            fun hc => absurd ((abs_cast_div_pow_lt _ 2).mp hc)
              (not_lt.mpr (le_trans (by norm_num) b2))
          rcases lt_or_le |(n : ℤ)| (1024 ^ 4) with b3 | b3
          · have c3 : |((n : ℤ) : ℚ) / 1024 ^ 3| < 1024 :=
              (abs_cast_div_pow_lt _ 3).mpr
                (lt_of_lt_of_le b3 (by norm_num))
            rw [if_neg nc0, if_neg nc0, if_neg nc1, if_neg nc1,
              if_neg nc2, if_neg nc2, if_pos c3, if_pos c3]
          · have nc3 : ¬ |((n : ℤ) : ℚ) / 1024 ^ 3| < 1024 :=
              fun hc => absurd ((abs_cast_div_pow_lt _ 3).mp hc)
                (not_lt.mpr (le_trans (by norm_num) b3))
            have c4 : |((n : ℤ) : ℚ) / 1024 ^ 4| < 1024 :=
              (abs_cast_div_pow_lt _ 4).mpr
                (lt_of_lt_of_le hlt' (by norm_num))
            rw [if_neg nc0, if_neg nc0, if_neg nc1, if_neg nc1,
              if_neg nc2, if_neg nc2, if_neg nc3, if_neg nc3,
              if_pos c4]

end TerrariaWeb
